import Mathlib

/-!
Verification development for the Arcane Engine model loader
(`Arcane/Graphics/Mesh/Model.cpp`).

The C++ source is shallowly embedded as follows:

* `float` weights become `ℚ` (the code only stores weights and compares
  them with `<` and `>`, which agree with the rational order on the
  representable inputs we reason about);
* `glm::mat4` / `aiMatrix4x4` become 4×4 rational matrices `Mat4`;
* the mutable `Model` object becomes an explicit `ModelState` record that
  is threaded through the processing functions;
* assimp input data (`aiScene`, `aiNode`, `aiMesh`, `aiBone`,
  `aiMaterial`) becomes plain records holding the fields the loader
  reads; array accesses that C++ performs unchecked are modelled with
  `List.get?` / `List.getD` (an out-of-range access is undefined
  behaviour in the source and is modelled as a no-op here);
* log output relevant to the claims is modelled as explicit return values
  (a warning counter for material resolution, the error message list for
  `LoadModel`).
-/

namespace Arcane

/-- 4×4 rational matrix, modelling `glm::mat4` and `aiMatrix4x4`. -/
abbrev Mat4 := Matrix (Fin 4) (Fin 4) ℚ

/-- Conversion from assimp's row-major matrix layout to glm's
column-major layout (`ConvertAssimpMatrixToGLM`, defined outside `src/`):
a transposition of the entries. No claim depends on the matrix values. -/
def convertAssimpMatrixToGLM (m : Mat4) : Mat4 :=
  Matrix.transpose m

/-- `glm::inverse`, written with the adjugate so that it is executable.
On a singular matrix the C++ float code produces garbage (division by
zero); here the scale factor `det⁻¹` is then `0`.  No claim depends on
the matrix values. -/
def mat4Inverse (m : Mat4) : Mat4 :=
  (Matrix.det m)⁻¹ • Matrix.adjugate m

/-- `glm::vec3` with rational components. -/
structure Vec3 where
  x : ℚ
  y : ℚ
  z : ℚ
deriving DecidableEq

/-- `glm::vec2` with rational components. -/
structure Vec2 where
  x : ℚ
  y : ℚ
deriving DecidableEq

/-- One bone-influence slot of a vertex: an entry of the parallel arrays
`VertexBoneData.BoneIDs` / `VertexBoneData.Weights`.  A slot whose
`boneID` is `-1` is unused. -/
structure Slot where
  boneID : Int
  weight : ℚ
deriving DecidableEq

/-- The per-vertex fixed-capacity influence record `VertexBoneData`,
modelled as the list of its `MaxBonesPerVertex` slots. -/
abbrev VertexBoneData := List Slot

/-- Modelled from the spec: the capacity constant `MaxBonesPerVertex` is
declared in `AnimationData.h`, which is not part of `src/`; the spec
fixes it as "a small compile-time constant (e.g. 4)" and all of its
worked examples use capacity 4. The slot-policy theorems below are
proved for an arbitrary slot list and do not depend on this value. -/
def MaxBonesPerVertex : Nat := 4

/-- A fresh slot array of capacity `cap`: every slot holds bone ID `-1`
and weight `0` (the `memset` initialisation in `ProcessMesh`). -/
def emptySlots (cap : Nat) : VertexBoneData :=
  List.replicate cap { boneID := -1, weight := 0 }

/-- The initial `VertexBoneData` of every vertex of a skinned mesh. -/
def emptyVertexBoneData : VertexBoneData :=
  emptySlots MaxBonesPerVertex

/-- First loop of the influence assignment (`Model.cpp:164-174`): scan
for the first slot with bone ID `-1`; if found, fill it with
`(boneID, weight)` and stop.  Returns `none` when every slot is
occupied. -/
def fillFirstEmpty (boneID : Int) (weight : ℚ) : List Slot → Option (List Slot)
  | [] => none
  | s :: rest =>
    if s.boneID = -1 then
      some ({ boneID := boneID, weight := weight } :: rest)
    else
      Option.map (fun r => s :: r) (fillFirstEmpty boneID weight rest)

/-- The body of the lowest-weight scan (`Model.cpp:179-188`): `i` is the
index of the head of the remaining list, `low` the running lowest weight
(started at `1.0`, "maximum weight a bone can have on a vert"), `idx`
the index of the running lowest slot (started at `-1`). -/
def lowestWeightScanGo : List Slot → Nat → ℚ → Int → ℚ × Int
  | [], _, low, idx => (low, idx)
  | s :: rest, i, low, idx =>
    if s.weight < low then
      lowestWeightScanGo rest (i + 1) s.weight (Int.ofNat i)
    else
      lowestWeightScanGo rest (i + 1) low idx

/-- The lowest-weight scan over a full slot array, with the source's
initial values `lowestWeight = 1.0` and `smallestWeightIndex = -1`. -/
def lowestWeightScan (slots : List Slot) : ℚ × Int :=
  lowestWeightScanGo slots 0 1 (-1)

/-- One influence assignment (`Model.cpp:163-203`): try to fill the
first unused slot; if all slots are occupied, run the lowest-weight scan
and overwrite the found slot exactly when the new weight strictly
exceeds the recorded lowest weight and the scan found a slot. -/
def addBoneInfluence (boneID : Int) (currentWeight : ℚ) (slots : List Slot) : List Slot :=
  match fillFirstEmpty boneID currentWeight slots with
  | some filled => filled
  | none =>
    let scanned := lowestWeightScan slots
    if currentWeight > scanned.1 ∧ scanned.2 ≠ -1 then
      slots.set scanned.2.toNat { boneID := boneID, weight := currentWeight }
    else
      slots

/-- The sequence of influence assignments a single vertex receives
during the bone loop of `ProcessMesh`, in source-reported order: each
element is the `(boneID, weight)` pair of one reported influence for
that vertex. -/
def applyInfluenceList (infl : List (Int × ℚ)) (slots : List Slot) : List Slot :=
  infl.foldl (fun acc p => addBoneInfluence p.1 p.2 acc) slots

/-- The bone IDs held by the occupied slots (those whose ID is not
`-1`) of a vertex, in slot order. -/
def occupiedBoneIDs (slots : List Slot) : List Int :=
  (slots.filter (fun s => s.boneID ≠ -1)).map Slot.boneID

/-- Registry entry `BoneData`: the stable bone ID and the inverse
bind-pose transform. -/
structure BoneData where
  boneID : Int
  inverseBindPose : Mat4

/-- A texture request handed to the asset manager
(`Load2DTextureAsync`): the resolved file path and the colour-space
flag `TextureSettings.IsSRGB`. -/
structure TextureRequest where
  path : String
  isSRGB : Bool
deriving DecidableEq

/-- The per-mesh material record: at most one texture per recognized
channel. -/
structure MaterialRec where
  albedoMap : Option TextureRequest
  normalMap : Option TextureRequest
  ambientOcclusionMap : Option TextureRequest
  displacementMap : Option TextureRequest
deriving DecidableEq

/-- A material with every channel slot empty (the default
`Material`). -/
def emptyMaterialRec : MaterialRec :=
  { albedoMap := none, normalMap := none, ambientOcclusionMap := none,
    displacementMap := none }

/-- The four assimp texture channel kinds the loader queries. -/
inductive AiTextureType where
  | diffuse
  | normals
  | ambient
  | displacement
deriving DecidableEq

/-- The part of `aiMaterial` the loader reads: the stored texture paths
of each channel kind (`GetTextureCount` is the length,
`GetTexture(type, 0, &str)` the head). -/
structure AiMaterial where
  textures : AiTextureType → List String

/-- An `aiMaterial` with no textures. -/
def emptyAiMaterial : AiMaterial :=
  { textures := fun _ => [] }

/-- The part of `aiBone` the loader reads: name, offset matrix, and the
reported `(mVertexId, mWeight)` pairs. -/
structure AiBone where
  name : String
  offsetMatrix : Mat4
  weights : List (Nat × ℚ)

/-- The part of `aiMesh` the loader reads.  The per-vertex attribute
arrays are modelled as total functions, as the C++ accesses them
unchecked for every index below `mNumVertices`; `mTextureCoords[0]` may
be null, hence the `Option`. -/
structure AiMesh where
  numVertices : Nat
  vertices : Nat → Vec3
  normals : Nat → Vec3
  tangents : Nat → Vec3
  bitangents : Nat → Vec3
  textureCoords0 : Option (Nat → Vec3)
  bones : List AiBone
  faces : List (List Nat)
  materialIndex : Nat

/-- A scene-graph node: transformation, mesh indices into the scene's
mesh array, and child nodes. -/
inductive AiNode where
  | mk (transformation : Mat4) (meshIndices : List Nat) (children : List AiNode)

/-- The node's transformation matrix (`mTransformation`). -/
def AiNode.transformation : AiNode → Mat4
  | AiNode.mk t _ _ => t

/-- The part of `aiScene` the loader reads.  `flagsIncomplete` is the
test `mFlags & AI_SCENE_FLAGS_INCOMPLETE`; `rootNode` is `none` when
`mRootNode` is null. -/
structure AiScene where
  flagsIncomplete : Bool
  rootNode : Option AiNode
  meshes : List AiMesh
  materials : List AiMaterial

/-- A finished mesh record: the parallel attribute sequences, the
per-vertex influence records, the flat index sequence and the
material. -/
structure MeshRec where
  positions : List Vec3
  uvs : List Vec2
  normals : List Vec3
  tangents : List Vec3
  bitangents : List Vec3
  boneWeights : List VertexBoneData
  indices : List Nat
  material : MaterialRec

/-- The mutable state of a `Model` object: mesh collection, bone
registry (`m_BoneDataMap` with its counter `m_BoneCount`), the global
inverse transform and the identifying path strings. -/
structure ModelState where
  meshes : List MeshRec
  boneDataMap : List (String × BoneData)
  boneCount : Int
  globalInverseTransform : Mat4
  directory : String
  name : String

/-- A freshly constructed `Model`: no meshes, empty registry, counter
`0`, empty path strings (`Model::Model()`). -/
def emptyModel : ModelState :=
  { meshes := [], boneDataMap := [], boneCount := 0,
    globalInverseTransform := 1, directory := "", name := "" }

/-- Bone registration (`Model.cpp:137-150`): look the name up in the
model-wide map; if absent, create a `BoneData` carrying the next counter
value and the converted offset matrix (post-increment of `m_BoneCount`),
otherwise return the stored ID and leave the state untouched. -/
def registerBone (st : ModelState) (boneName : String) (offsetMatrix : Mat4) :
    ModelState × Int :=
  match List.lookup boneName st.boneDataMap with
  | none =>
    let newID := st.boneCount
    ({ st with
        boneDataMap :=
          (boneName,
            { boneID := newID,
              inverseBindPose := convertAssimpMatrixToGLM offsetMatrix }) ::
            st.boneDataMap,
        boneCount := st.boneCount + 1 },
      newID)
  | some bd => (st, bd.boneID)

/-- The weight loop of one bone (`Model.cpp:156-204`): for each reported
`(vertexID, weight)` pair, run the influence assignment on that vertex's
slot array.  (The C++ asserts `vertexID < mNumVertices` and then indexes
unchecked; an out-of-range `vertexID` is undefined behaviour there and a
no-op here.) -/
def applyWeights (boneID : Int) (weights : List (Nat × ℚ))
    (bw : List VertexBoneData) : List VertexBoneData :=
  weights.foldl
    (fun acc vw => acc.set vw.1 (addBoneInfluence boneID vw.2 (acc.getD vw.1 [])))
    bw

/-- The bone loop of `ProcessMesh` (`Model.cpp:131-205`): register each
bone and apply its reported weights to the per-vertex slot arrays. -/
def processBones (bones : List AiBone) (st : ModelState)
    (bw : List VertexBoneData) : ModelState × List VertexBoneData :=
  bones.foldl
    (fun acc bone =>
      let reg := registerBone acc.1 bone.name bone.offsetMatrix
      (reg.1, applyWeights reg.2 bone.weights acc.2))
    (st, bw)

/-- UV extraction for one vertex (`Model.cpp:100-112`): the first
texture-coordinate channel's `x`/`y` when the channel exists, else
`(0, 0)`. -/
def extractUV (mesh : AiMesh) (i : Nat) : Vec2 :=
  match mesh.textureCoords0 with
  | some tc => { x := (tc i).x, y := (tc i).y }
  | none => { x := 0, y := 0 }

/-- The index builder (`Model.cpp:209-216`): for each face in order, for
each index within the face in order, append the raw vertex index. -/
def buildIndices (faces : List (List Nat)) : List Nat :=
  faces.foldl (fun acc face => face.foldl (fun a ix => a ++ [ix]) acc) []

/-- `Model::LoadMaterialTexture` (`Model.cpp:237-258`): warn once when
more than one texture of the type is present; when at least one is
present, request the first one from the asset manager with the given
colour-space flag and the path joined onto the model directory.  The
second component counts the emitted warnings. -/
def loadMaterialTexture (directory : String) (mat : AiMaterial)
    (ty : AiTextureType) (isSRGB : Bool) : Option TextureRequest × Nat :=
  let warns := if 1 < (mat.textures ty).length then 1 else 0
  match mat.textures ty with
  | [] => (none, warns)
  | p :: _ => (some { path := directory ++ "/" ++ p, isSRGB := isSRGB }, warns)

/-- The material block of `ProcessMesh` (`Model.cpp:228-231`): resolve
the four channels, albedo as sRGB colour data and the other three as
linear.  The second component totals the emitted warnings. -/
def resolveMaterial (directory : String) (mat : AiMaterial) : MaterialRec × Nat :=
  let albedo := loadMaterialTexture directory mat AiTextureType.diffuse true
  let normalM := loadMaterialTexture directory mat AiTextureType.normals false
  let ao := loadMaterialTexture directory mat AiTextureType.ambient false
  let disp := loadMaterialTexture directory mat AiTextureType.displacement false
  ({ albedoMap := albedo.1, normalMap := normalM.1,
     ambientOcclusionMap := ao.1, displacementMap := disp.1 },
    albedo.2 + normalM.2 + ao.2 + disp.2)

/-- The root node's transformation, read by `ProcessMesh`
(`Model.cpp:128`).  `LoadModel` only reaches `ProcessMesh` when the root
node exists, so the `none` branch is never taken on that path. -/
def sceneRootTransform (scene : AiScene) : Mat4 :=
  match scene.rootNode with
  | some root => root.transformation
  | none => 0

/-- `Model::ProcessMesh` (`Model.cpp:78-235`) split into the state
update and the assembled mesh record; `processMesh` appends the record
to the model's mesh collection.  Steps in source order: attribute
extraction, per-vertex slot initialisation (only when the mesh has
bones), the global-inverse-transform update, the bone loop, the index
builder, and material resolution (the C++ guard `mMaterialIndex >= 0`
on an unsigned value is always true). -/
def processMeshData (scene : AiScene) (mesh : AiMesh) (st : ModelState) :
    ModelState × MeshRec :=
  let n := mesh.numVertices
  let positions := (List.range n).map mesh.vertices
  let uvs := (List.range n).map (extractUV mesh)
  let normalsList := (List.range n).map mesh.normals
  let tangents := (List.range n).map mesh.tangents
  let bitangents := (List.range n).map mesh.bitangents
  let bw0 : List VertexBoneData :=
    if 0 < mesh.bones.length then List.replicate n emptyVertexBoneData else []
  let st1 := { st with
    globalInverseTransform :=
      mat4Inverse (convertAssimpMatrixToGLM (sceneRootTransform scene)) }
  let res := processBones mesh.bones st1 bw0
  let indices := buildIndices mesh.faces
  let material :=
    if 0 ≤ mesh.materialIndex then
      (resolveMaterial res.1.directory
        (scene.materials.getD mesh.materialIndex emptyAiMaterial)).1
    else emptyMaterialRec
  (res.1,
    { positions := positions, uvs := uvs, normals := normalsList,
      tangents := tangents, bitangents := bitangents,
      boneWeights := res.2, indices := indices, material := material })

/-- `Model::ProcessMesh`: thread the state and append the finished mesh
record. -/
def processMesh (scene : AiScene) (mesh : AiMesh) (st : ModelState) : ModelState :=
  let r := processMeshData scene mesh st
  { r.1 with meshes := r.1.meshes ++ [r.2] }

/-- The mesh loop of `ProcessNode` (`Model.cpp:67-71`): resolve each
mesh index against the scene's mesh array and process it.  (The C++
indexes `mMeshes` unchecked; an out-of-range index is undefined
behaviour there and a no-op here.) -/
def processNodeMeshes (scene : AiScene) (idxs : List Nat) (st : ModelState) :
    ModelState :=
  idxs.foldl
    (fun s idx =>
      match scene.meshes.get? idx with
      | some mesh => processMesh scene mesh s
      | none => s)
    st

mutual

/-- `Model::ProcessNode` (`Model.cpp:64-76`): process the node's meshes,
then recursively its children, in order. -/
def processNode (scene : AiScene) (node : AiNode) (st : ModelState) : ModelState :=
  match node with
  | AiNode.mk _ meshIdxs children =>
    processNodeChildren scene children (processNodeMeshes scene meshIdxs st)

/-- The child loop of `Model::ProcessNode`. -/
def processNodeChildren (scene : AiScene) (nodes : List AiNode) (st : ModelState) :
    ModelState :=
  match nodes with
  | [] => st
  | c :: cs => processNodeChildren scene cs (processNode scene c st)

end

/-- `std::string::find_last_of`: the last index whose character is one
of `seps`, `none` when there is none (`npos`). -/
def findLastOf : List Char → List Char → Option Nat
  | [], _ => none
  | c :: rest, seps =>
    match findLastOf rest seps with
    | some j => some (j + 1)
    | none => if c ∈ seps then some 0 else none

/-- `m_Directory = path.substr(0, path.find_last_of('/'))`
(`Model.cpp:50`): everything before the last `'/'`; with no `'/'`,
`find_last_of` yields `npos` and `substr(0, npos)` the whole string. -/
def modelDirectory (path : String) : String :=
  match findLastOf path.data ['/'] with
  | some i => String.mk (path.data.take i)
  | none => String.mk path.data

/-- `m_Name = path.substr(path.find_last_of("/\\") + 1)`
(`Model.cpp:51`): everything after the last `'/'` or `'\'`; with no
separator, `npos + 1` wraps to `0` and the whole string is taken. -/
def modelName (path : String) : String :=
  match findLastOf path.data ['/', '\\'] with
  | some i => String.mk (path.data.drop (i + 1))
  | none => String.mk path.data

/-- `Model::LoadModel` (`Model.cpp:39-54`).  The import result is the
external importer's output: `none` for a null scene, otherwise a scene
that may be flagged incomplete or lack a root node; `errorString` is the
importer's `GetErrorString()`.  On any of the three fatal conditions the
error is logged (second component) and the state is returned untouched;
otherwise the directory and name are derived from the path and the
scene graph is traversed from the root. -/
def loadModel (m : ModelState) (path : String) (result : Option AiScene)
    (errorString : String) : ModelState × List String :=
  match result with
  | none => (m, ["failed to load model - " ++ errorString])
  | some scene =>
    if scene.flagsIncomplete then
      (m, ["failed to load model - " ++ errorString])
    else
      match scene.rootNode with
      | none => (m, ["failed to load model - " ++ errorString])
      | some root =>
        let m1 := { m with directory := modelDirectory path, name := modelName path }
        (processNode scene root m1, [])

/-- Concrete fixture: a full slot array whose occupied slots all hold
weight `1`. -/
def slotsAllOne : List Slot :=
  [{ boneID := 0, weight := 1 }, { boneID := 1, weight := 1 },
   { boneID := 2, weight := 1 }, { boneID := 3, weight := 1 }]

/-- Concrete fixture: the spec's worked example, a full slot array with
weights `{0.1, 0.2, 0.3, 0.4}`. -/
def slotsSpecExample : List Slot :=
  [{ boneID := 0, weight := Rat.divInt 1 10 }, { boneID := 1, weight := Rat.divInt 2 10 },
   { boneID := 2, weight := Rat.divInt 3 10 }, { boneID := 3, weight := Rat.divInt 4 10 }]

/-- Concrete fixture vector. -/
def sampleVec3 : Vec3 := { x := 0, y := 0, z := 0 }

/-- Concrete fixture: a 2-vertex mesh with one bone and no UV channel. -/
def sampleMeshSkinned : AiMesh :=
  { numVertices := 2, vertices := fun _ => sampleVec3,
    normals := fun _ => sampleVec3, tangents := fun _ => sampleVec3,
    bitangents := fun _ => sampleVec3, textureCoords0 := none,
    bones := [{ name := "B", offsetMatrix := 0, weights := [(0, 1)] }],
    faces := [[0, 1, 0]], materialIndex := 0 }

/-- Concrete fixture: a 2-vertex boneless mesh with a UV channel. -/
def sampleMeshUnskinned : AiMesh :=
  { numVertices := 2, vertices := fun _ => sampleVec3,
    normals := fun _ => sampleVec3, tangents := fun _ => sampleVec3,
    bitangents := fun _ => sampleVec3,
    textureCoords0 := some (fun _ => { x := 5, y := 6, z := 7 }),
    bones := [], faces := [[0, 1, 0]], materialIndex := 0 }

/-- Concrete fixture scene. -/
def sampleScene : AiScene :=
  { flagsIncomplete := false, rootNode := some (AiNode.mk 0 [0] []),
    meshes := [sampleMeshSkinned], materials := [] }

/-- Concrete fixture: a material with two albedo textures, one normal
texture and nothing else. -/
def sampleMaterialTwoAlbedo : AiMaterial :=
  { textures := fun ty =>
      match ty with
      | AiTextureType.diffuse => ["a.png", "b.png"]
      | AiTextureType.normals => ["n.png"]
      | _ => [] }

/-! ## Lemmas about the lowest-weight scan and the first-empty-slot scan -/

theorem lowestWeightScanGo_all_ge (l : List Slot) :
    ∀ (i : Nat) (low : ℚ) (idx : Int),
      (∀ s ∈ l, low ≤ s.weight) → lowestWeightScanGo l i low idx = (low, idx) := by
  induction l with
  | nil => intro i low idx _; rfl
  | cons s rest ih =>
    intro i low idx h
    have hs : ¬ s.weight < low := not_lt.mpr (h s (List.mem_cons_self s rest))
    simp only [lowestWeightScanGo, if_neg hs]
    exact ih (i + 1) low idx (fun t ht => h t (List.mem_cons_of_mem s ht))

theorem lowestWeightScanGo_exists_lt (l : List Slot) :
    ∀ (i : Nat) (low : ℚ) (idx : Int),
      (∃ s ∈ l, s.weight < low) →
      ∃ k s, l.get? k = some s ∧ s.weight < low ∧
        (∀ j t, l.get? j = some t → s.weight ≤ t.weight) ∧
        (∀ j, j < k → ∀ t, l.get? j = some t → s.weight < t.weight) ∧
        lowestWeightScanGo l i low idx = (s.weight, Int.ofNat (i + k)) := by
  induction l with
  | nil => intro i low idx h; simp at h
  | cons s rest ih =>
    intro i low idx hex
    by_cases hs : s.weight < low
    · simp only [lowestWeightScanGo, if_pos hs]
      by_cases hr : ∃ t ∈ rest, t.weight < s.weight
      · obtain ⟨k', s', hget, hlt, hmin, hfirst, heq⟩ :=
          ih (i + 1) s.weight (Int.ofNat i) hr
        refine ⟨k' + 1, s', by simpa using hget, lt_trans hlt hs, ?_, ?_, ?_⟩
        · intro j t hj
          cases j with
          | zero =>
            simp only [List.get?_cons_zero, Option.some.injEq] at hj
            subst hj; exact le_of_lt hlt
          | succ j' => exact hmin j' t (by simpa using hj)
        · intro j hjk t hj
          cases j with
          | zero =>
            simp only [List.get?_cons_zero, Option.some.injEq] at hj
            subst hj; exact hlt
          | succ j' => exact hfirst j' (Nat.lt_of_succ_lt_succ hjk) t (by simpa using hj)
        · rw [heq]
          have harith : i + 1 + k' = i + (k' + 1) := by omega
          rw [harith]
      · push_neg at hr
        have heq := lowestWeightScanGo_all_ge rest (i + 1) s.weight (Int.ofNat i) hr
        refine ⟨0, s, rfl, hs, ?_, ?_, ?_⟩
        · intro j t hj
          cases j with
          | zero =>
            simp only [List.get?_cons_zero, Option.some.injEq] at hj
            subst hj; exact le_refl _
          | succ j' => exact hr t (List.get?_mem (by simpa using hj))
        · intro j hj; exact absurd hj (Nat.not_lt_zero j)
        · rw [heq]; simp
    · simp only [lowestWeightScanGo, if_neg hs]
      have hex' : ∃ t ∈ rest, t.weight < low := by
        obtain ⟨t, ht, hlt⟩ := hex
        rcases List.mem_cons.mp ht with rfl | hmem
        · exact absurd hlt hs
        · exact ⟨t, hmem, hlt⟩
      obtain ⟨k', s', hget, hlt, hmin, hfirst, heq⟩ := ih (i + 1) low idx hex'
      have hstrict : s'.weight < s.weight := lt_of_lt_of_le hlt (not_lt.mp hs)
      refine ⟨k' + 1, s', by simpa using hget, hlt, ?_, ?_, ?_⟩
      · intro j t hj
        cases j with
        | zero =>
          simp only [List.get?_cons_zero, Option.some.injEq] at hj
          subst hj; exact le_of_lt hstrict
        | succ j' => exact hmin j' t (by simpa using hj)
      · intro j hjk t hj
        cases j with
        | zero =>
          simp only [List.get?_cons_zero, Option.some.injEq] at hj
          subst hj; exact hstrict
        | succ j' => exact hfirst j' (Nat.lt_of_succ_lt_succ hjk) t (by simpa using hj)
      · rw [heq]
        have harith : i + 1 + k' = i + (k' + 1) := by omega
        rw [harith]

theorem fillFirstEmpty_eq_none (b : Int) (w : ℚ) :
    ∀ l : List Slot, (fillFirstEmpty b w l = none ↔ ∀ s ∈ l, s.boneID ≠ -1) := by
  intro l
  induction l with
  | nil => simp [fillFirstEmpty]
  | cons s rest ih =>
    by_cases h : s.boneID = -1
    · simp [fillFirstEmpty, h]
    · simp [fillFirstEmpty, h, Option.map_eq_none', ih]

theorem fillFirstEmpty_first_empty (b : Int) (w : ℚ) :
    ∀ l : List Slot, (∃ s ∈ l, s.boneID = -1) →
      ∃ k s, l.get? k = some s ∧ s.boneID = -1 ∧
        (∀ j, j < k → ∀ t, l.get? j = some t → t.boneID ≠ -1) ∧
        fillFirstEmpty b w l = some (l.set k { boneID := b, weight := w }) := by
  intro l
  induction l with
  | nil => intro h; simp at h
  | cons s rest ih =>
    intro hex
    by_cases h : s.boneID = -1
    · refine ⟨0, s, rfl, h, fun j hj => absurd hj (Nat.not_lt_zero j), ?_⟩
      simp [fillFirstEmpty, h]
    · have hex' : ∃ t ∈ rest, t.boneID = -1 := by
        obtain ⟨t, ht, h1⟩ := hex
        rcases List.mem_cons.mp ht with rfl | hmem
        · exact absurd h1 h
        · exact ⟨t, hmem, h1⟩
      obtain ⟨k', s', hget, hid, hfirst, heq⟩ := ih hex'
      refine ⟨k' + 1, s', by simpa using hget, hid, ?_, ?_⟩
      · intro j hj t hjt
        cases j with
        | zero =>
          simp only [List.get?_cons_zero, Option.some.injEq] at hjt
          subst hjt; exact h
        | succ j' => exact hfirst j' (Nat.lt_of_succ_lt_succ hj) t (by simpa using hjt)
      · simp only [fillFirstEmpty, if_neg h, heq, Option.map_some']
        rfl

/-- C1 (amended): for an influence `(b, w)` assigned to a vertex's slot
array: (1) if some slot is unused (bone ID `-1`), the first such slot is
filled with `(b, w)` and no other slot changes; (2) if every slot is
occupied and at least one occupied slot has weight below `1.0` (the
amendment — the scan's upper bound), then the first slot holding the
minimum weight is overwritten with `(b, w)` exactly when `w` strictly
exceeds that minimum, and otherwise (including an exact tie) every slot
is left unchanged. -/
theorem addBoneInfluence_slot_policy (b : Int) (w : ℚ) (slots : List Slot) :
    ((∃ s ∈ slots, s.boneID = -1) →
      ∃ k s, slots.get? k = some s ∧ s.boneID = -1 ∧
        (∀ j, j < k → ∀ t, slots.get? j = some t → t.boneID ≠ -1) ∧
        addBoneInfluence b w slots = slots.set k { boneID := b, weight := w }) ∧
    ((∀ s ∈ slots, s.boneID ≠ -1) → (∃ s ∈ slots, s.weight < 1) →
      ∃ k s, slots.get? k = some s ∧
        (∀ j t, slots.get? j = some t → s.weight ≤ t.weight) ∧
        (∀ j, j < k → ∀ t, slots.get? j = some t → s.weight < t.weight) ∧
        addBoneInfluence b w slots =
          if s.weight < w then slots.set k { boneID := b, weight := w }
          else slots) := by
  constructor
  · intro hex
    obtain ⟨k, s, hget, hid, hfirst, heq⟩ := fillFirstEmpty_first_empty b w slots hex
    exact ⟨k, s, hget, hid, hfirst, by simp only [addBoneInfluence, heq]⟩
  · intro hocc hlow
    have hnone : fillFirstEmpty b w slots = none :=
      (fillFirstEmpty_eq_none b w slots).mpr hocc
    obtain ⟨k, s, hget, _, hmin, hfirst, heq⟩ :=
      lowestWeightScanGo_exists_lt slots 0 1 (-1) hlow
    have hscan : lowestWeightScan slots = (s.weight, Int.ofNat k) := by
      rw [lowestWeightScan, heq]; simp
    refine ⟨k, s, hget, hmin, hfirst, ?_⟩
    have hne : Int.ofNat k ≠ -1 := by
      rw [Int.ofNat_eq_coe]; omega
    simp only [addBoneInfluence, hnone, hscan, gt_iff_lt, ne_eq, hne,
      not_false_eq_true, and_true]
    rfl

/-- C1 counterexample: a full slot array whose occupied slots all hold
weight `1.0` and a new influence of weight `2.0`: the new weight
strictly exceeds the minimum occupied weight and no slot is unused, yet
the code discards the influence (the scan's upper bound `1.0` leaves
`smallestWeightIndex` at `-1`), while the claim demands that the first
minimum-weight slot be overwritten. -/
theorem addBoneInfluence_full_at_weight_one_drops :
    (∀ s ∈ slotsAllOne, s.boneID ≠ -1) ∧
    (∀ s ∈ slotsAllOne, (1 : ℚ) ≤ s.weight) ∧
    (1 : ℚ) < 2 ∧
    addBoneInfluence 4 2 slotsAllOne = slotsAllOne ∧
    slotsAllOne.set 0 { boneID := 4, weight := 2 } ≠ slotsAllOne := by
  decide

/-- Witness for `addBoneInfluence_slot_policy` at the spec's worked
example (weights `{0.1, 0.2, 0.3, 0.4}`, all slots occupied). -/
theorem addBoneInfluence_slot_policy_witness :
    (∀ s ∈ slotsSpecExample, s.boneID ≠ -1) ∧
    (∃ s ∈ slotsSpecExample, s.weight < 1) ∧
    (∃ k s, slotsSpecExample.get? k = some s ∧
      (∀ j t, slotsSpecExample.get? j = some t → s.weight ≤ t.weight) ∧
      (∀ j, j < k → ∀ t, slotsSpecExample.get? j = some t → s.weight < t.weight) ∧
      addBoneInfluence 9 (Rat.divInt 5 10) slotsSpecExample =
        if s.weight < Rat.divInt 5 10 then
          slotsSpecExample.set k { boneID := 9, weight := Rat.divInt 5 10 }
        else slotsSpecExample) :=
  ⟨by decide, by decide,
    (addBoneInfluence_slot_policy 9 (Rat.divInt 5 10) slotsSpecExample).2
      (by decide) (by decide)⟩

/-- C8 (confirmed): the lowest-weight scan starts from the upper bound
`1.0` with a strict comparison, so whenever it selects a slot, that
slot's weight is strictly below `1.0`; consequently, on a vertex whose
occupied slots all hold weight at least `1.0`, any over-capacity
influence is discarded unchanged, whatever its weight. -/
theorem evictionScan_never_selects_weight_ge_one (b : Int) (w : ℚ) (slots : List Slot) :
    (∀ k : Nat, (lowestWeightScan slots).2 = Int.ofNat k →
      ∃ s, slots.get? k = some s ∧ s.weight < 1) ∧
    ((∀ s ∈ slots, s.boneID ≠ -1) → (∀ s ∈ slots, 1 ≤ s.weight) →
      addBoneInfluence b w slots = slots) := by
  constructor
  · intro k hk
    by_cases hlow : ∃ s ∈ slots, s.weight < 1
    · obtain ⟨k', s, hget, hlt, _, _, heq⟩ :=
        lowestWeightScanGo_exists_lt slots 0 1 (-1) hlow
      have hscan : lowestWeightScan slots = (s.weight, Int.ofNat k') := by
        rw [lowestWeightScan, heq]; simp
      rw [hscan] at hk
      simp only [Int.ofNat_eq_coe, Nat.cast_inj] at hk
      subst hk
      exact ⟨s, hget, hlt⟩
    · push_neg at hlow
      have hscan := lowestWeightScanGo_all_ge slots 0 1 (-1) hlow
      rw [lowestWeightScan] at hk
      rw [hscan] at hk
      simp at hk
  · intro hocc hge
    have hnone : fillFirstEmpty b w slots = none :=
      (fillFirstEmpty_eq_none b w slots).mpr hocc
    have hscan := lowestWeightScanGo_all_ge slots 0 1 (-1) hge
    simp only [addBoneInfluence, hnone, lowestWeightScan, hscan]
    simp

/-- Witness for `evictionScan_never_selects_weight_ge_one`: a concrete
full array of weight-`1` slots discards a weight-`5` influence. -/
theorem evictionScan_never_selects_weight_ge_one_witness :
    (∀ s ∈ slotsAllOne, s.boneID ≠ -1) ∧
    (∀ s ∈ slotsAllOne, (1 : ℚ) ≤ s.weight) ∧
    addBoneInfluence 7 5 slotsAllOne = slotsAllOne :=
  ⟨by decide, by decide,
    (evictionScan_never_selects_weight_ge_one 7 5 slotsAllOne).2 (by decide) (by decide)⟩

/-! ## Lemmas about occupied bone IDs (claim C7) -/

theorem occupiedBoneIDs_cons (s : Slot) (l : List Slot) :
    occupiedBoneIDs (s :: l) =
      if s.boneID = -1 then occupiedBoneIDs l else s.boneID :: occupiedBoneIDs l := by
  by_cases h : s.boneID = -1 <;> simp [occupiedBoneIDs, List.filter_cons, h]

theorem mem_occupiedBoneIDs_cons (s : Slot) (l : List Slot) (x : Int) :
    x ∈ occupiedBoneIDs (s :: l) ↔
      (s.boneID ≠ -1 ∧ x = s.boneID) ∨ x ∈ occupiedBoneIDs l := by
  rw [occupiedBoneIDs_cons]
  by_cases h : s.boneID = -1 <;> simp [h]

theorem occupiedBoneIDs_emptySlots (cap : Nat) :
    occupiedBoneIDs (emptySlots cap) = [] := by
  induction cap with
  | zero => rfl
  | succ n ih =>
    have hrep : emptySlots (n + 1) =
        { boneID := -1, weight := 0 } :: emptySlots n := by
      simp [emptySlots, List.replicate_succ]
    rw [hrep, occupiedBoneIDs_cons]
    simp [ih]

theorem occupiedBoneIDs_tail_nodup (s : Slot) (rest : List Slot) :
    (occupiedBoneIDs (s :: rest)).Nodup → (occupiedBoneIDs rest).Nodup := by
  rw [occupiedBoneIDs_cons]
  by_cases h : s.boneID = -1
  · rw [if_pos h]; exact id
  · rw [if_neg h]; exact fun hn => (List.nodup_cons.mp hn).2

theorem not_mem_occupiedBoneIDs_tail (s : Slot) (rest : List Slot) (x : Int) :
    x ∉ occupiedBoneIDs (s :: rest) → x ∉ occupiedBoneIDs rest := by
  intro h hmem
  exact h ((mem_occupiedBoneIDs_cons s rest x).mpr (Or.inr hmem))

theorem occupiedBoneIDs_set_subset (b : Int) (w : ℚ) :
    ∀ (l : List Slot) (k : Nat) (x : Int),
      x ∈ occupiedBoneIDs (l.set k { boneID := b, weight := w }) →
      x = b ∨ x ∈ occupiedBoneIDs l := by
  intro l
  induction l with
  | nil => intro k x hx; simp [occupiedBoneIDs] at hx
  | cons s rest ih =>
    intro k x hx
    cases k with
    | zero =>
      rw [List.set_cons_zero, mem_occupiedBoneIDs_cons] at hx
      rcases hx with ⟨_, hxb⟩ | hmem
      · exact Or.inl hxb
      · exact Or.inr ((mem_occupiedBoneIDs_cons s rest x).mpr (Or.inr hmem))
    | succ k' =>
      rw [List.set_cons_succ, mem_occupiedBoneIDs_cons] at hx
      rcases hx with ⟨hs, hxs⟩ | hmem
      · exact Or.inr ((mem_occupiedBoneIDs_cons s rest x).mpr (Or.inl ⟨hs, hxs⟩))
      · rcases ih k' x hmem with h1 | h2
        · exact Or.inl h1
        · exact Or.inr ((mem_occupiedBoneIDs_cons s rest x).mpr (Or.inr h2))

theorem occupiedBoneIDs_set_nodup (b : Int) (w : ℚ) (hb : b ≠ -1) :
    ∀ (l : List Slot) (k : Nat),
      (occupiedBoneIDs l).Nodup → b ∉ occupiedBoneIDs l →
      (occupiedBoneIDs (l.set k { boneID := b, weight := w })).Nodup := by
  intro l
  induction l with
  | nil => intro k _ _; simp [occupiedBoneIDs]
  | cons s rest ih =>
    intro k hnd hnb
    have hndr : (occupiedBoneIDs rest).Nodup := occupiedBoneIDs_tail_nodup s rest hnd
    have hnbr : b ∉ occupiedBoneIDs rest := not_mem_occupiedBoneIDs_tail s rest b hnb
    cases k with
    | zero =>
      rw [List.set_cons_zero, occupiedBoneIDs_cons, if_neg hb, List.nodup_cons]
      exact ⟨hnbr, hndr⟩
    | succ k' =>
      rw [List.set_cons_succ, occupiedBoneIDs_cons]
      by_cases hsid : s.boneID = -1
      · rw [if_pos hsid]
        exact ih k' hndr hnbr
      · rw [if_neg hsid, List.nodup_cons]
        refine ⟨?_, ih k' hndr hnbr⟩
        intro hmem
        rcases occupiedBoneIDs_set_subset b w rest k' s.boneID hmem with h1 | h2
        · apply hnb
          rw [mem_occupiedBoneIDs_cons]
          exact Or.inl ⟨hsid, h1.symm⟩
        · rw [occupiedBoneIDs_cons, if_neg hsid] at hnd
          exact (List.nodup_cons.mp hnd).1 h2

theorem addBoneInfluence_unchanged_or_set (b : Int) (w : ℚ) (slots : List Slot) :
    addBoneInfluence b w slots = slots ∨
    ∃ k, addBoneInfluence b w slots = slots.set k { boneID := b, weight := w } := by
  by_cases hem : ∃ s ∈ slots, s.boneID = -1
  · obtain ⟨k, s, _, _, _, heq⟩ := fillFirstEmpty_first_empty b w slots hem
    exact Or.inr ⟨k, by simp only [addBoneInfluence, heq]⟩
  · push_neg at hem
    have hnone : fillFirstEmpty b w slots = none :=
      (fillFirstEmpty_eq_none b w slots).mpr hem
    simp only [addBoneInfluence, hnone]
    by_cases hcond :
        w > (lowestWeightScan slots).1 ∧ (lowestWeightScan slots).2 ≠ -1
    · exact Or.inr ⟨(lowestWeightScan slots).2.toNat, by rw [if_pos hcond]⟩
    · exact Or.inl (by rw [if_neg hcond])

theorem applyInfluenceList_nodup_aux :
    ∀ (infl : List (Int × ℚ)) (slots : List Slot),
      (occupiedBoneIDs slots).Nodup →
      (infl.map Prod.fst).Nodup →
      (∀ p ∈ infl, p.1 ≠ -1) →
      (∀ p ∈ infl, p.1 ∉ occupiedBoneIDs slots) →
      (occupiedBoneIDs (applyInfluenceList infl slots)).Nodup ∧
      (∀ x ∈ occupiedBoneIDs (applyInfluenceList infl slots),
        x ∈ occupiedBoneIDs slots ∨ x ∈ infl.map Prod.fst) := by
  intro infl
  induction infl with
  | nil => intro slots h _ _ _; exact ⟨h, fun x hx => Or.inl hx⟩
  | cons p rest ih =>
    intro slots hnd hids hneg hfresh
    have hp1 : p.1 ≠ -1 := hneg p (List.mem_cons_self p rest)
    have hpfresh : p.1 ∉ occupiedBoneIDs slots := hfresh p (List.mem_cons_self p rest)
    have happly : applyInfluenceList (p :: rest) slots =
        applyInfluenceList rest (addBoneInfluence p.1 p.2 slots) := rfl
    have hnd' : (occupiedBoneIDs (addBoneInfluence p.1 p.2 slots)).Nodup := by
      rcases addBoneInfluence_unchanged_or_set p.1 p.2 slots with h | ⟨k, hk⟩
      · rw [h]; exact hnd
      · rw [hk]; exact occupiedBoneIDs_set_nodup p.1 p.2 hp1 slots k hnd hpfresh
    have hsub' : ∀ x ∈ occupiedBoneIDs (addBoneInfluence p.1 p.2 slots),
        x = p.1 ∨ x ∈ occupiedBoneIDs slots := by
      rcases addBoneInfluence_unchanged_or_set p.1 p.2 slots with h | ⟨k, hk⟩
      · rw [h]; exact fun x hx => Or.inr hx
      · rw [hk]; exact fun x hx => occupiedBoneIDs_set_subset p.1 p.2 slots k x hx
    have hmapcons : (p :: rest).map Prod.fst = p.1 :: rest.map Prod.fst :=
      List.map_cons Prod.fst p rest
    rw [hmapcons] at hids
    have hidsr : (rest.map Prod.fst).Nodup := (List.nodup_cons.mp hids).2
    have hp_notin_rest : p.1 ∉ rest.map Prod.fst := (List.nodup_cons.mp hids).1
    have hnegr : ∀ q ∈ rest, q.1 ≠ -1 := fun q hq => hneg q (List.mem_cons_of_mem p hq)
    have hfreshr : ∀ q ∈ rest, q.1 ∉ occupiedBoneIDs (addBoneInfluence p.1 p.2 slots) := by
      intro q hq hmem
      rcases hsub' q.1 hmem with h1 | h2
      · apply hp_notin_rest
        rw [← h1]
        exact List.mem_map_of_mem Prod.fst hq
      · exact hfresh q (List.mem_cons_of_mem p hq) h2
    obtain ⟨hnd'', hsub''⟩ :=
      ih (addBoneInfluence p.1 p.2 slots) hnd' hidsr hnegr hfreshr
    rw [happly, hmapcons]
    refine ⟨hnd'', ?_⟩
    intro x hx
    rcases hsub'' x hx with h1 | h2
    · rcases hsub' x h1 with ha | hb
      · exact Or.inr (by rw [ha]; exact List.mem_cons_self _ _)
      · exact Or.inl hb
    · exact Or.inr (List.mem_cons_of_mem _ h2)

/-- C7 (amended): at every point during and after a vertex's influence
assignments — i.e. after any leading portion of the influence sequence
the bone loop reports for that vertex — no two occupied slots hold the
same bone ID, provided the influences reported for the vertex carry
pairwise distinct bone IDs, none equal to `-1` (the amendment: this is
the "correct operation" the spec describes; the code itself never checks
it, and a bone listing the same vertex twice violates it). -/
theorem occupied_slots_boneIDs_nodup (cap : Nat) (infl : List (Int × ℚ))
    (hids : (infl.map Prod.fst).Nodup) (hneg : ∀ p ∈ infl, p.1 ≠ -1) :
    ∀ pre rest, infl = pre ++ rest →
      (occupiedBoneIDs (applyInfluenceList pre (emptySlots cap))).Nodup := by
  intro pre rest hsplit
  subst hsplit
  have hids' : (pre.map Prod.fst).Nodup := by
    rw [List.map_append] at hids
    exact (List.nodup_append.mp hids).1
  have hneg' : ∀ p ∈ pre, p.1 ≠ -1 :=
    fun p hp => hneg p (List.mem_append_left rest hp)
  have hfresh : ∀ p ∈ pre, p.1 ∉ occupiedBoneIDs (emptySlots cap) := by
    intro p _ hmem
    rw [occupiedBoneIDs_emptySlots] at hmem
    exact absurd hmem (List.not_mem_nil _)
  have hnd0 : (occupiedBoneIDs (emptySlots cap)).Nodup := by
    rw [occupiedBoneIDs_emptySlots]; exact List.nodup_nil
  exact (applyInfluenceList_nodup_aux pre (emptySlots cap) hnd0 hids' hneg' hfresh).1

/-- C7 counterexample: one registered bone (name "B", assigned ID 0)
whose weight list reports vertex 0 twice; after the bone loop the
vertex's first two slots are both occupied and both hold bone ID 0, so
the claimed invariant fails on the code as stated (nothing guards
against a bone reporting one vertex more than once). -/
theorem duplicate_vertex_report_duplicates_boneID :
    (occupiedBoneIDs
      ((processBones
          [{ name := "B", offsetMatrix := 0,
             weights := [(0, 1), (0, Rat.divInt 3 10)] }]
          emptyModel [emptyVertexBoneData]).2.getD 0 [])) = [0, 0] ∧
    ¬ (occupiedBoneIDs
      ((processBones
          [{ name := "B", offsetMatrix := 0,
             weights := [(0, 1), (0, Rat.divInt 3 10)] }]
          emptyModel [emptyVertexBoneData]).2.getD 0 [])).Nodup := by
  constructor
  · decide
  · decide

/-- Witness for `occupied_slots_boneIDs_nodup` at a concrete influence
list with two distinct bone IDs. -/
theorem occupied_slots_boneIDs_nodup_witness :
    (([((0 : Int), (1 : ℚ)), (1, Rat.divInt 3 10)].map Prod.fst).Nodup) ∧
    (∀ p ∈ [((0 : Int), (1 : ℚ)), (1, Rat.divInt 3 10)], p.1 ≠ -1) ∧
    (occupiedBoneIDs (applyInfluenceList [((0 : Int), (1 : ℚ)), (1, Rat.divInt 3 10)]
        (emptySlots 4))).Nodup :=
  ⟨by decide, by decide,
    occupied_slots_boneIDs_nodup 4 [((0 : Int), (1 : ℚ)), (1, Rat.divInt 3 10)]
      (by decide) (by decide)
      [((0 : Int), (1 : ℚ)), (1, Rat.divInt 3 10)] [] (by simp)⟩

/-! ## Bone registration (claim C2) -/

/-- C2 (confirmed): bone registration is idempotent and monotonic.  On a
fresh name the returned ID is the current counter value, the counter
advances by one, and the converted offset matrix is stored; on a known
name the stored ID is returned and the state is untouched; hence a
second registration of the same name returns the same ID and changes
nothing; the model-wide counter starts at `0`. -/
theorem registerBone_idempotent_monotonic (st : ModelState) (boneName : String)
    (o1 o2 : Mat4) :
    ((List.lookup boneName st.boneDataMap = none) →
      (registerBone st boneName o1).2 = st.boneCount ∧
      (registerBone st boneName o1).1.boneCount = st.boneCount + 1 ∧
      List.lookup boneName (registerBone st boneName o1).1.boneDataMap =
        some { boneID := st.boneCount,
               inverseBindPose := convertAssimpMatrixToGLM o1 }) ∧
    (∀ bd, List.lookup boneName st.boneDataMap = some bd →
      registerBone st boneName o1 = (st, bd.boneID)) ∧
    (registerBone (registerBone st boneName o1).1 boneName o2 =
      ((registerBone st boneName o1).1, (registerBone st boneName o1).2)) ∧
    emptyModel.boneCount = 0 := by
  refine ⟨?_, ?_, ?_, rfl⟩
  · intro hnone
    simp [registerBone, hnone, List.lookup]
  · intro bd hsome
    simp only [registerBone, hsome]
  · cases hcase : List.lookup boneName st.boneDataMap with
    | none => simp [registerBone, hcase, List.lookup]
    | some bd => simp [registerBone, hcase]

/-- Witness for `registerBone_idempotent_monotonic` on the empty
registry. -/
theorem registerBone_idempotent_monotonic_witness :
    (List.lookup "spine" emptyModel.boneDataMap = none) ∧
    (registerBone emptyModel "spine" 0).2 = emptyModel.boneCount ∧
    (registerBone emptyModel "spine" 0).1.boneCount = emptyModel.boneCount + 1 ∧
    (registerBone (registerBone emptyModel "spine" 0).1 "spine" 1 =
      ((registerBone emptyModel "spine" 0).1, (registerBone emptyModel "spine" 0).2)) :=
  ⟨rfl,
   ((registerBone_idempotent_monotonic emptyModel "spine" 0 1).1 rfl).1,
   ((registerBone_idempotent_monotonic emptyModel "spine" 0 1).1 rfl).2.1,
   (registerBone_idempotent_monotonic emptyModel "spine" 0 1).2.2.1⟩

/-! ## Fatal load failure (claim C3) -/

/-- C3 (confirmed): when the importer returns a null scene, a scene
flagged incomplete, or a scene without a root node, `LoadModel` logs the
importer's error string and returns with the model state exactly as it
was: no mesh is appended and the directory/name fields are not set, so a
previously empty model remains empty. -/
theorem loadModel_fatal_failure_atomic (m : ModelState) (path errStr : String)
    (result : Option AiScene)
    (h : result = none ∨ ∃ scene, result = some scene ∧
      (scene.flagsIncomplete = true ∨ scene.rootNode = none)) :
    loadModel m path result errStr = (m, ["failed to load model - " ++ errStr]) := by
  rcases h with rfl | ⟨scene, rfl, hbad⟩
  · rfl
  · rcases hbad with hflag | hroot
    · simp [loadModel, hflag]
    · by_cases hf : scene.flagsIncomplete <;> simp [loadModel, hf, hroot]

/-- Witness for `loadModel_fatal_failure_atomic`: a null scene leaves
the empty model empty. -/
theorem loadModel_fatal_failure_atomic_witness :
    loadModel emptyModel "a/b.obj" none "boom" =
      (emptyModel, ["failed to load model - " ++ "boom"]) :=
  loadModel_fatal_failure_atomic emptyModel "a/b.obj" "boom" none (Or.inl rfl)

/-! ## Parallel sequence lengths (claim C4) -/

theorem applyWeights_length (boneID : Int) :
    ∀ (ws : List (Nat × ℚ)) (bw : List VertexBoneData),
      (applyWeights boneID ws bw).length = bw.length := by
  intro ws
  induction ws with
  | nil => intro bw; rfl
  | cons vw rest ih =>
    intro bw
    have hstep : applyWeights boneID (vw :: rest) bw =
        applyWeights boneID rest
          (bw.set vw.1 (addBoneInfluence boneID vw.2 (bw.getD vw.1 []))) := rfl
    rw [hstep, ih, List.length_set]

theorem processBones_bw_length :
    ∀ (bones : List AiBone) (st : ModelState) (bw : List VertexBoneData),
      (processBones bones st bw).2.length = bw.length := by
  intro bones
  induction bones with
  | nil => intro st bw; rfl
  | cons bone rest ih =>
    intro st bw
    have hstep : processBones (bone :: rest) st bw =
        processBones rest (registerBone st bone.name bone.offsetMatrix).1
          (applyWeights (registerBone st bone.name bone.offsetMatrix).2
            bone.weights bw) := rfl
    rw [hstep, ih, applyWeights_length]

/-- C4 (confirmed): for every processed mesh, the five attribute
sequences all have length equal to the vertex count; the per-vertex
bone-influence sequence has that length when the mesh has at least one
bone and is empty when it has none (in which case the bone loop — and
with it the influence assigner — never runs). -/
theorem processMesh_parallel_lengths (scene : AiScene) (mesh : AiMesh)
    (st : ModelState) :
    ((processMeshData scene mesh st).2.positions.length = mesh.numVertices) ∧
    ((processMeshData scene mesh st).2.uvs.length = mesh.numVertices) ∧
    ((processMeshData scene mesh st).2.normals.length = mesh.numVertices) ∧
    ((processMeshData scene mesh st).2.tangents.length = mesh.numVertices) ∧
    ((processMeshData scene mesh st).2.bitangents.length = mesh.numVertices) ∧
    (0 < mesh.bones.length →
      (processMeshData scene mesh st).2.boneWeights.length = mesh.numVertices) ∧
    (mesh.bones = [] → (processMeshData scene mesh st).2.boneWeights = []) := by
  refine ⟨?_, ?_, ?_, ?_, ?_, ?_, ?_⟩
  · simp [processMeshData]
  · simp [processMeshData]
  · simp [processMeshData]
  · simp [processMeshData]
  · simp [processMeshData]
  · intro hpos
    simp only [processMeshData]
    rw [processBones_bw_length]
    simp [hpos]
  · intro hnil
    simp [processMeshData, hnil, processBones]

/-- Witness for `processMesh_parallel_lengths` at a skinned and an
unskinned fixture mesh. -/
theorem processMesh_parallel_lengths_witness :
    (0 < sampleMeshSkinned.bones.length) ∧
    (processMeshData sampleScene sampleMeshSkinned emptyModel).2.boneWeights.length =
      sampleMeshSkinned.numVertices ∧
    (processMeshData sampleScene sampleMeshUnskinned emptyModel).2.boneWeights = [] ∧
    (processMeshData sampleScene sampleMeshSkinned emptyModel).2.positions.length =
      sampleMeshSkinned.numVertices :=
  ⟨by decide,
   (processMesh_parallel_lengths sampleScene sampleMeshSkinned
      emptyModel).2.2.2.2.2.1 (by decide),
   (processMesh_parallel_lengths sampleScene sampleMeshUnskinned
      emptyModel).2.2.2.2.2.2 rfl,
   (processMesh_parallel_lengths sampleScene sampleMeshSkinned emptyModel).1⟩

/-! ## The index builder (claim C5) -/

theorem foldl_append_singleton (f : List Nat) :
    ∀ acc : List Nat, f.foldl (fun a ix => a ++ [ix]) acc = acc ++ f := by
  induction f with
  | nil => intro acc; simp
  | cons x rest ih =>
    intro acc
    rw [List.foldl_cons, ih]
    simp

theorem buildIndices_eq_flatten_aux :
    ∀ (faces : List (List Nat)) (acc : List Nat),
      faces.foldl (fun a face => face.foldl (fun a2 ix => a2 ++ [ix]) a) acc =
        acc ++ faces.flatten := by
  intro faces
  induction faces with
  | nil => intro acc; simp
  | cons f rest ih =>
    intro acc
    rw [List.foldl_cons, foldl_append_singleton, ih]
    simp

theorem buildIndices_eq_flatten (faces : List (List Nat)) :
    buildIndices faces = faces.flatten := by
  rw [buildIndices, buildIndices_eq_flatten_aux]
  simp

theorem flatten_length_three :
    ∀ faces : List (List Nat), (∀ f ∈ faces, f.length = 3) →
      faces.flatten.length = 3 * faces.length := by
  intro faces
  induction faces with
  | nil => intro _; rfl
  | cons f rest ih =>
    intro h
    have hf : f.length = 3 := h f (List.mem_cons_self f rest)
    have hr := ih (fun g hg => h g (List.mem_cons_of_mem f hg))
    simp only [List.flatten_cons, List.length_append, List.length_cons, hf, hr]
    omega

/-- C5 (confirmed): the index builder output is exactly the
concatenation, in face order and within each face in index order, of
the raw vertex indices of every face; when every face has exactly 3
indices the output length is 3 times the face count; and when every
face index is below the mesh's vertex count (as the importer guarantees
for a well-formed mesh — the code copies indices unchecked), so is
every emitted index. -/
theorem buildIndices_spec (mesh : AiMesh) :
    buildIndices mesh.faces = mesh.faces.flatten ∧
    ((∀ f ∈ mesh.faces, f.length = 3) →
      (buildIndices mesh.faces).length = 3 * mesh.faces.length) ∧
    ((∀ f ∈ mesh.faces, ∀ ix ∈ f, ix < mesh.numVertices) →
      ∀ ix ∈ buildIndices mesh.faces, ix < mesh.numVertices) := by
  refine ⟨buildIndices_eq_flatten mesh.faces, ?_, ?_⟩
  · intro h
    rw [buildIndices_eq_flatten]
    exact flatten_length_three mesh.faces h
  · intro h ix hix
    rw [buildIndices_eq_flatten] at hix
    obtain ⟨f, hf, hixf⟩ := List.mem_flatten.mp hix
    exact h f hf ix hixf

/-- Witness for `buildIndices_spec` at the fixture mesh (one triangle,
2 vertices). -/
theorem buildIndices_spec_witness :
    (∀ f ∈ sampleMeshSkinned.faces, f.length = 3) ∧
    (buildIndices sampleMeshSkinned.faces).length =
      3 * sampleMeshSkinned.faces.length ∧
    (∀ f ∈ sampleMeshSkinned.faces, ∀ ix ∈ f, ix < sampleMeshSkinned.numVertices) ∧
    (∀ ix ∈ buildIndices sampleMeshSkinned.faces,
      ix < sampleMeshSkinned.numVertices) :=
  ⟨by decide, (buildIndices_spec sampleMeshSkinned).2.1 (by decide), by decide,
   (buildIndices_spec sampleMeshSkinned).2.2 (by decide)⟩

/-! ## Material resolution (claim C6) -/

/-- C6 (confirmed): per channel, zero source textures leave the
channel's slot empty; at least one source texture resolves to the
first-enumerated one, with the albedo channel requested as sRGB colour
data and normal/ambient-occlusion/displacement as linear; and each
channel's resolution call emits exactly one warning when more than one
texture is present and none otherwise. -/
theorem material_channel_resolution (directory : String) (mat : AiMaterial) :
    (mat.textures AiTextureType.diffuse = [] →
      (resolveMaterial directory mat).1.albedoMap = none) ∧
    (mat.textures AiTextureType.normals = [] →
      (resolveMaterial directory mat).1.normalMap = none) ∧
    (mat.textures AiTextureType.ambient = [] →
      (resolveMaterial directory mat).1.ambientOcclusionMap = none) ∧
    (mat.textures AiTextureType.displacement = [] →
      (resolveMaterial directory mat).1.displacementMap = none) ∧
    (∀ p rest, mat.textures AiTextureType.diffuse = p :: rest →
      (resolveMaterial directory mat).1.albedoMap =
        some { path := directory ++ "/" ++ p, isSRGB := true }) ∧
    (∀ p rest, mat.textures AiTextureType.normals = p :: rest →
      (resolveMaterial directory mat).1.normalMap =
        some { path := directory ++ "/" ++ p, isSRGB := false }) ∧
    (∀ p rest, mat.textures AiTextureType.ambient = p :: rest →
      (resolveMaterial directory mat).1.ambientOcclusionMap =
        some { path := directory ++ "/" ++ p, isSRGB := false }) ∧
    (∀ p rest, mat.textures AiTextureType.displacement = p :: rest →
      (resolveMaterial directory mat).1.displacementMap =
        some { path := directory ++ "/" ++ p, isSRGB := false }) ∧
    (∀ ty sflag, 1 < (mat.textures ty).length →
      (loadMaterialTexture directory mat ty sflag).2 = 1) ∧
    (∀ ty sflag, (mat.textures ty).length ≤ 1 →
      (loadMaterialTexture directory mat ty sflag).2 = 0) := by
  refine ⟨?_, ?_, ?_, ?_, ?_, ?_, ?_, ?_, ?_, ?_⟩
  · intro h; simp [resolveMaterial, loadMaterialTexture, h]
  · intro h; simp [resolveMaterial, loadMaterialTexture, h]
  · intro h; simp [resolveMaterial, loadMaterialTexture, h]
  · intro h; simp [resolveMaterial, loadMaterialTexture, h]
  · intro p rest h; simp [resolveMaterial, loadMaterialTexture, h]
  · intro p rest h; simp [resolveMaterial, loadMaterialTexture, h]
  · intro p rest h; simp [resolveMaterial, loadMaterialTexture, h]
  · intro p rest h; simp [resolveMaterial, loadMaterialTexture, h]
  · intro ty sflag h
    cases hc : mat.textures ty with
    | nil => rw [hc] at h; simp at h
    | cons p rest =>
      rw [hc] at h
      simp only [loadMaterialTexture, hc]
      rw [if_pos h]
  · intro ty sflag h
    cases hc : mat.textures ty with
    | nil => simp [loadMaterialTexture, hc]
    | cons p rest =>
      rw [hc] at h
      simp only [loadMaterialTexture, hc]
      rw [if_neg (not_lt.mpr h)]

/-- Witness for `material_channel_resolution` at a fixture material with
two albedo textures, one normal texture and empty remaining channels. -/
theorem material_channel_resolution_witness :
    (sampleMaterialTwoAlbedo.textures AiTextureType.diffuse = ["a.png", "b.png"]) ∧
    (resolveMaterial "dir" sampleMaterialTwoAlbedo).1.albedoMap =
      some { path := "dir" ++ "/" ++ "a.png", isSRGB := true } ∧
    (1 < (sampleMaterialTwoAlbedo.textures AiTextureType.diffuse).length) ∧
    (loadMaterialTexture "dir" sampleMaterialTwoAlbedo AiTextureType.diffuse true).2 = 1 ∧
    (sampleMaterialTwoAlbedo.textures AiTextureType.ambient = []) ∧
    (resolveMaterial "dir" sampleMaterialTwoAlbedo).1.ambientOcclusionMap = none :=
  ⟨rfl,
   (material_channel_resolution "dir" sampleMaterialTwoAlbedo).2.2.2.2.1
     "a.png" ["b.png"] rfl,
   by decide,
   (material_channel_resolution "dir" sampleMaterialTwoAlbedo).2.2.2.2.2.2.2.2.1
     AiTextureType.diffuse true (by decide),
   rfl,
   (material_channel_resolution "dir" sampleMaterialTwoAlbedo).2.2.1 rfl⟩

/-! ## UV fallback (claim C9) -/

/-- C9 (confirmed): every vertex of a mesh without a texture-coordinate
channel gets UV `(0, 0)`; with a channel present, every vertex's UV is
the channel's `x`/`y` for that vertex. -/
theorem processMesh_uv_fallback (scene : AiScene) (mesh : AiMesh) (st : ModelState) :
    (mesh.textureCoords0 = none →
      ∀ i, i < mesh.numVertices →
        (processMeshData scene mesh st).2.uvs.get? i = some { x := 0, y := 0 }) ∧
    (∀ tc, mesh.textureCoords0 = some tc →
      ∀ i, i < mesh.numVertices →
        (processMeshData scene mesh st).2.uvs.get? i =
          some { x := (tc i).x, y := (tc i).y }) := by
  constructor
  · intro h i hi
    simp [processMeshData, List.getElem?_map, List.getElem?_range hi, extractUV, h]
  · intro tc h i hi
    simp [processMeshData, List.getElem?_map, List.getElem?_range hi, extractUV, h]

/-- Witness for `processMesh_uv_fallback` at the two fixture meshes. -/
theorem processMesh_uv_fallback_witness :
    (sampleMeshSkinned.textureCoords0 = none) ∧
    (processMeshData sampleScene sampleMeshSkinned emptyModel).2.uvs.get? 0 =
      some { x := 0, y := 0 } ∧
    (processMeshData sampleScene sampleMeshUnskinned emptyModel).2.uvs.get? 1 =
      some { x := 5, y := 6 } :=
  ⟨rfl,
   (processMesh_uv_fallback sampleScene sampleMeshSkinned emptyModel).1
     rfl 0 (by decide),
   (processMesh_uv_fallback sampleScene sampleMeshUnskinned emptyModel).2
     (fun _ => { x := 5, y := 6, z := 7 }) rfl 1 (by decide)⟩

/-! ## Directory and name derivation (claim C10) -/

theorem registerBone_preserves_dir_name (st : ModelState) (n : String) (o : Mat4) :
    (registerBone st n o).1.directory = st.directory ∧
    (registerBone st n o).1.name = st.name := by
  cases h : List.lookup n st.boneDataMap <;> simp [registerBone, h]

theorem processBones_preserves_dir_name :
    ∀ (bones : List AiBone) (st : ModelState) (bw : List VertexBoneData),
      (processBones bones st bw).1.directory = st.directory ∧
      (processBones bones st bw).1.name = st.name := by
  intro bones
  induction bones with
  | nil => intro st bw; exact ⟨rfl, rfl⟩
  | cons bone rest ih =>
    intro st bw
    have hstep : processBones (bone :: rest) st bw =
        processBones rest (registerBone st bone.name bone.offsetMatrix).1
          (applyWeights (registerBone st bone.name bone.offsetMatrix).2
            bone.weights bw) := rfl
    rw [hstep]
    obtain ⟨h1, h2⟩ := ih (registerBone st bone.name bone.offsetMatrix).1
      (applyWeights (registerBone st bone.name bone.offsetMatrix).2 bone.weights bw)
    obtain ⟨g1, g2⟩ := registerBone_preserves_dir_name st bone.name bone.offsetMatrix
    exact ⟨h1.trans g1, h2.trans g2⟩

theorem processMesh_preserves_dir_name (scene : AiScene) (mesh : AiMesh)
    (st : ModelState) :
    (processMesh scene mesh st).directory = st.directory ∧
    (processMesh scene mesh st).name = st.name := by
  have h := processBones_preserves_dir_name mesh.bones
    { st with globalInverseTransform :=
        mat4Inverse (convertAssimpMatrixToGLM (sceneRootTransform scene)) }
    (if 0 < mesh.bones.length then
      List.replicate mesh.numVertices emptyVertexBoneData else [])
  simp only [processMesh, processMeshData]
  exact ⟨h.1, h.2⟩

theorem processNodeMeshes_preserves_dir_name (scene : AiScene) :
    ∀ (idxs : List Nat) (st : ModelState),
      (processNodeMeshes scene idxs st).directory = st.directory ∧
      (processNodeMeshes scene idxs st).name = st.name := by
  intro idxs
  induction idxs with
  | nil => intro st; exact ⟨rfl, rfl⟩
  | cons idx rest ih =>
    intro st
    cases h : scene.meshes[idx]? with
    | none =>
      have hstep : processNodeMeshes scene (idx :: rest) st =
          processNodeMeshes scene rest st := by
        simp [processNodeMeshes, List.foldl_cons, h]
      rw [hstep]
      exact ih st
    | some mesh =>
      have hstep : processNodeMeshes scene (idx :: rest) st =
          processNodeMeshes scene rest (processMesh scene mesh st) := by
        simp [processNodeMeshes, List.foldl_cons, h]
      rw [hstep]
      obtain ⟨h1, h2⟩ := ih (processMesh scene mesh st)
      obtain ⟨g1, g2⟩ := processMesh_preserves_dir_name scene mesh st
      exact ⟨h1.trans g1, h2.trans g2⟩

theorem processNode_preserves_dir_name_aux (scene : AiScene) :
    ∀ fuel : Nat,
      (∀ (node : AiNode) (st : ModelState), sizeOf node < fuel →
        ((processNode scene node st).directory = st.directory ∧
         (processNode scene node st).name = st.name)) ∧
      (∀ (nodes : List AiNode) (st : ModelState), sizeOf nodes < fuel →
        ((processNodeChildren scene nodes st).directory = st.directory ∧
         (processNodeChildren scene nodes st).name = st.name)) := by
  intro fuel
  induction fuel with
  | zero =>
    constructor
    · intro node st hlt
      exact absurd hlt (Nat.not_lt_zero _)
    · intro nodes st hlt
      exact absurd hlt (Nat.not_lt_zero _)
  | succ n ih =>
    obtain ⟨ihNode, ihChildren⟩ := ih
    constructor
    · intro node st hlt
      cases node with
      | mk t ms cs =>
        have hnode : processNode scene (AiNode.mk t ms cs) st =
            processNodeChildren scene cs (processNodeMeshes scene ms st) := by
          simp only [processNode]
        rw [hnode]
        have hcs : sizeOf cs < n := by
          have hspec : sizeOf (AiNode.mk t ms cs) =
              1 + sizeOf t + sizeOf ms + sizeOf cs := by simp
          omega
        obtain ⟨h1, h2⟩ := ihChildren cs (processNodeMeshes scene ms st) hcs
        obtain ⟨g1, g2⟩ := processNodeMeshes_preserves_dir_name scene ms st
        exact ⟨h1.trans g1, h2.trans g2⟩
    · intro nodes st hlt
      cases nodes with
      | nil =>
        have hstep : processNodeChildren scene [] st = st := by
          simp only [processNodeChildren]
        rw [hstep]
        exact ⟨rfl, rfl⟩
      | cons c cs =>
        have hstep : processNodeChildren scene (c :: cs) st =
            processNodeChildren scene cs (processNode scene c st) := by
          simp only [processNodeChildren]
        have hsz : sizeOf c < n ∧ sizeOf cs < n := by
          have hspec : sizeOf (c :: cs) = 1 + sizeOf c + sizeOf cs := by simp
          omega
        rw [hstep]
        obtain ⟨h1, h2⟩ := ihChildren cs (processNode scene c st) hsz.2
        obtain ⟨g1, g2⟩ := ihNode c st hsz.1
        exact ⟨h1.trans g1, h2.trans g2⟩

theorem processNode_preserves_dir_name (scene : AiScene) (node : AiNode)
    (st : ModelState) :
    (processNode scene node st).directory = st.directory ∧
    (processNode scene node st).name = st.name :=
  (processNode_preserves_dir_name_aux scene (sizeOf node + 1)).1 node st
    (Nat.lt_succ_self _)

theorem findLastOf_none_spec :
    ∀ (l : List Char) (seps : List Char), findLastOf l seps = none →
      ∀ c ∈ l, c ∉ seps := by
  intro l
  induction l with
  | nil => intro seps _ c hc; simp at hc
  | cons a rest ih =>
    intro seps h c hc
    rw [findLastOf] at h
    cases hrec : findLastOf rest seps with
    | some j => rw [hrec] at h; simp at h
    | none =>
      rw [hrec] at h
      by_cases ha : a ∈ seps
      · rw [if_pos ha] at h; simp at h
      · rcases List.mem_cons.mp hc with rfl | hmem
        · exact ha
        · exact ih seps hrec c hmem

theorem findLastOf_some_spec :
    ∀ (l : List Char) (seps : List Char) (i : Nat), findLastOf l seps = some i →
      ∃ c, l.get? i = some c ∧ c ∈ seps ∧
        (∀ j, i < j → ∀ d, l.get? j = some d → d ∉ seps) := by
  intro l
  induction l with
  | nil => intro seps i h; rw [findLastOf] at h; simp at h
  | cons a rest ih =>
    intro seps i h
    rw [findLastOf] at h
    cases hrec : findLastOf rest seps with
    | some j =>
      rw [hrec] at h
      have hij : j + 1 = i := Option.some.inj h
      subst hij
      obtain ⟨c, hget, hcse, hafter⟩ := ih seps j hrec
      refine ⟨c, by simpa using hget, hcse, ?_⟩
      intro j2 hj2 d hd
      cases j2 with
      | zero => omega
      | succ j2' =>
        exact hafter j2' (Nat.lt_of_succ_lt_succ hj2) d (by simpa using hd)
    | none =>
      rw [hrec] at h
      by_cases ha : a ∈ seps
      · rw [if_pos ha] at h
        have hi : (0 : Nat) = i := Option.some.inj h
        subst hi
        refine ⟨a, rfl, ha, ?_⟩
        intro j hj d hd
        cases j with
        | zero => omega
        | succ j' =>
          have hmem : d ∈ rest := List.get?_mem (by simpa using hd)
          exact findLastOf_none_spec rest seps hrec d hmem
      · rw [if_neg ha] at h; simp at h

/-- C10 (confirmed): on a successful load the model directory is
everything of the path before the last `'/'` (only `'/'` is considered)
and the model name is everything after the last `'/'` or `'\'` (both
separators considered); a path without the separator is not excluded —
`find_last_of` then returns `npos`, so the directory becomes the whole
path and (via the `npos + 1` wrap-around to `0`) so does the name. -/
theorem loadModel_directory_name (m : ModelState) (path errStr : String)
    (scene : AiScene) (root : AiNode)
    (hflags : scene.flagsIncomplete = false) (hroot : scene.rootNode = some root) :
    ((loadModel m path (some scene) errStr).1.directory = modelDirectory path) ∧
    ((loadModel m path (some scene) errStr).1.name = modelName path) ∧
    (∀ i, findLastOf path.data ['/'] = some i →
      modelDirectory path = String.mk (path.data.take i) ∧
      ∃ c, path.data.get? i = some c ∧ c ∈ (['/'] : List Char) ∧
        (∀ j, i < j → ∀ d, path.data.get? j = some d →
          d ∉ (['/'] : List Char))) ∧
    (∀ i, findLastOf path.data ['/', '\\'] = some i →
      modelName path = String.mk (path.data.drop (i + 1)) ∧
      ∃ c, path.data.get? i = some c ∧ c ∈ (['/', '\\'] : List Char) ∧
        (∀ j, i < j → ∀ d, path.data.get? j = some d →
          d ∉ (['/', '\\'] : List Char))) ∧
    (findLastOf path.data ['/'] = none →
      modelDirectory path = String.mk path.data) ∧
    (findLastOf path.data ['/', '\\'] = none →
      modelName path = String.mk path.data) := by
  have hload : (loadModel m path (some scene) errStr).1 =
      processNode scene root
        { m with directory := modelDirectory path, name := modelName path } := by
    simp [loadModel, hflags, hroot]
  refine ⟨?_, ?_, ?_, ?_, ?_, ?_⟩
  · rw [hload]
    exact (processNode_preserves_dir_name scene root
      { m with directory := modelDirectory path, name := modelName path }).1
  · rw [hload]
    exact (processNode_preserves_dir_name scene root
      { m with directory := modelDirectory path, name := modelName path }).2
  · intro i hi
    exact ⟨by simp only [modelDirectory, hi], findLastOf_some_spec path.data ['/'] i hi⟩
  · intro i hi
    exact ⟨by simp only [modelName, hi], findLastOf_some_spec path.data ['/', '\\'] i hi⟩
  · intro h
    simp only [modelDirectory, h]
  · intro h
    simp only [modelName, h]

/-- Witness for `loadModel_directory_name` at a concrete successful
load. -/
theorem loadModel_directory_name_witness :
    (sampleScene.flagsIncomplete = false) ∧
    (sampleScene.rootNode = some (AiNode.mk 0 [0] [])) ∧
    ((loadModel emptyModel "assets/models/knight.obj" (some sampleScene) "").1.directory =
      modelDirectory "assets/models/knight.obj") ∧
    ((loadModel emptyModel "assets/models/knight.obj" (some sampleScene) "").1.name =
      modelName "assets/models/knight.obj") ∧
    modelDirectory "assets/models/knight.obj" = "assets/models" ∧
    modelName "assets/models/knight.obj" = "knight.obj" :=
  ⟨rfl, rfl,
   (loadModel_directory_name emptyModel "assets/models/knight.obj" "" sampleScene
      (AiNode.mk 0 [0] []) rfl rfl).1,
   (loadModel_directory_name emptyModel "assets/models/knight.obj" "" sampleScene
      (AiNode.mk 0 [0] []) rfl rfl).2.1,
   by decide, by decide⟩

end Arcane
